import Mathlib

/-!
Verification development for the gmail-extraction repository (src/main.py).

The Python source is shallowly embedded over `List Char`:
  - `parse_email_body` (the cascading body parser, src/main.py lines 369-444),
  - the three validators `is_valid_email` / `is_valid_name` / `is_valid_comment`
    (lines 106-191), parameterized by the externally supplied configuration sets,
  - the per-message processing loop of `main` (lines 589-665) as a pure step
    function on an explicit run state, and the run-level pipeline (checkpoint
    filtering and persistence, lines 540-711).

The regular expressions of the parser are hand-compiled into executable
backtracking matchers that follow Python `re` semantics (leftmost match for
`re.search`, anchored match for `re.match`, greedy `\s+`/`\s*`/`\S+`,
lazy `.+?` with DOTALL, ordered alternation, IGNORECASE).
-/

namespace GX

/-- Python `\s` / `str.strip()` whitespace (ASCII range): space, tab,
newline, vertical tab, form feed, carriage return. -/
def pySpace (c : Char) : Bool :=
  c = ' ' || c = '\t' || c = '\n' || c = Char.ofNat 11 || c = Char.ofNat 12 || c = '\r'

/-- Python `str.lower()` restricted to the characters this program
manipulates: ASCII letters plus the accented letters appearing in the
regex literals (É, À). -/
def pyLower (c : Char) : Char :=
  if 'A' ≤ c ∧ c ≤ 'Z' then Char.ofNat (c.toNat + 32)
  else if c = 'É' then 'é'
  else if c = 'À' then 'à'
  else c

/-- Python `str.strip()`: drop whitespace from both ends. -/
def pyStrip (cs : List Char) : List Char :=
  ((cs.dropWhile pySpace).reverse.dropWhile pySpace).reverse

/-- Line-ending normalization from `parse_email_body`:
`body_text.replace("\r\n", "\n").replace("\r", "\n")`. -/
def normNewlines : List Char → List Char
  | [] => []
  | '\r' :: '\n' :: rest => '\n' :: normNewlines rest
  | '\r' :: rest => '\n' :: normNewlines rest
  | c :: rest => c :: normNewlines rest

/-- Python `str.isdigit()` (ASCII digits; empty string is not a digit string). -/
def pyIsDigit (cs : List Char) : Bool :=
  !cs.isEmpty && cs.all (fun c => '0' ≤ c && c ≤ '9')

/-- Case-insensitive literal matching: consume a prefix of `cs` whose
lowercasing equals `lit` (given lowercase), returning the remainder. -/
def eatLitCI : List Char → List Char → Option (List Char)
  | [], cs => some cs
  | _, [] => none
  | l :: ls, c :: cs => if pyLower c = l then eatLitCI ls cs else none

/-- Consume one character whose lowercase form is in `chars`
(a character class such as `[ée]` under IGNORECASE). -/
def oneOfCI (chars : List Char) : List Char → Option (List Char)
  | [] => none
  | c :: cs => if chars.contains (pyLower c) then some cs else none

/-- The sub-pattern `\S+@\S+` on a whitespace-free token: the token must contain `'@'` at an
interior position (at least one character on each side). -/
def hasInteriorAt (tok : List Char) : Bool :=
  ((tok.drop 1).dropLast).contains '@'

/-- First half of the reply marker literal `Pour r[ée]pondre:` (lowercased). -/
def markerLit1 : List Char := "pour r".toList

/-- Second half of the reply marker literal (lowercased). -/
def markerLit2 : List Char := "pondre:".toList

/-- Attempt the email regex `Pour r[ée]pondre:\s*(\S+@\S+)` (IGNORECASE)
anchored at the start of `cs`; on success return the captured group, which by
greediness of `\S+` is the maximal whitespace-free run after `\s*`, accepted
only when it has an interior `'@'`. -/
def tryReplyAt (cs : List Char) : Option (List Char) :=
  match eatLitCI markerLit1 cs with
  | none => none
  | some r1 =>
    match oneOfCI ['é', 'e'] r1 with
    | none => none
    | some r2 =>
      match eatLitCI markerLit2 r2 with
      | none => none
      | some r3 =>
        if hasInteriorAt ((r3.dropWhile pySpace).takeWhile (fun c => !pySpace c))
        then some ((r3.dropWhile pySpace).takeWhile (fun c => !pySpace c))
        else none

/-- The `re.search` scan for the email pattern: try each start position left to right;
return the match start index and the captured group. -/
def findReply : List Char → Option (Nat × List Char)
  | [] => none
  | c :: cs =>
    match tryReplyAt (c :: cs) with
    | some tok => some (0, tok)
    | none => (findReply cs).map (fun p => (p.1 + 1, p.2))

/-- Greedy `\s+` followed by a non-whitespace continuation: consumes exactly
the maximal whitespace run, which must be non-empty (shrinking it would place
a whitespace character under a non-whitespace requirement). -/
def wsPlus (cs : List Char) : Option (List Char) :=
  match cs with
  | [] => none
  | c :: _ => if pySpace c then some (cs.dropWhile pySpace) else none

/-- Greedy `(\S+)`: consumes the maximal non-whitespace run, which must be
non-empty; the continuations in every pattern require whitespace next, so no
shorter run can ever match. -/
def takeTok (cs : List Char) : Option (List Char × List Char) :=
  let t := cs.takeWhile (fun c => !pySpace c)
  if t.isEmpty then none else some (t, cs.drop t.length)

/-- First literal chunk of the connective phrase (lowercased). -/
def connLit1 : List Char := "vient de vous sugg".toList

/-- Second literal chunk of the connective phrase (lowercased). -/
def connLit2 : List Char := "rer ceci ".toList

/-- Index of the first `':'` in a list. -/
def findColon : List Char → Option Nat
  | [] => none
  | c :: cs => if c = ':' then some 0 else (findColon cs).map (fun n => n + 1)

/-- Backtracking loop for `\s*.+?:` — `\s*` greedily takes `k` whitespace
characters, from the maximal run length downward; for each `k` the lazy `.+?`
stops at the first `':'` at index at least `k + 1`.  Returns the number of
characters consumed up to and including the colon. -/
def connTailLoop (r : List Char) : Nat → Option Nat
  | 0 => (findColon (r.drop 1)).map (fun j => j + 2)
  | k + 1 =>
    match (findColon (r.drop (k + 2))).map (fun j => k + 3 + j) with
    | some e => some e
    | none => connTailLoop r k

/-- Match `\s*.+?:\s*` at the start of `r` (the tail of the connective-phrase
regex): the `\s*`/lazy-dot backtracking loop followed by the trailing greedy
`\s*`.  Returns the consumed length. -/
def connTail (r : List Char) : Option Nat :=
  match connTailLoop r (r.takeWhile pySpace).length with
  | some e => some (e + ((r.drop e).takeWhile pySpace).length)
  | none => none

/-- Match the connective-phrase regex
`vient de vous sugg[ée]rer ceci [àa]\s*.+?:\s*` (IGNORECASE, DOTALL) anchored
at the start of `s`, returning the consumed length. -/
def connMatch (s : List Char) : Option Nat := do
  let r1 ← eatLitCI connLit1 s
  let r2 ← oneOfCI ['é', 'e'] r1
  let r3 ← eatLitCI connLit2 r2
  let r4 ← oneOfCI ['à', 'a'] r3
  let t ← connTail r4
  some (s.length - r4.length + t)

/-- Whitespace `\s+` then the connective phrase; the `\s+` is deterministic because the
phrase starts with a letter.  Returns the consumed length. -/
def wsConn (s : List Char) : Option Nat := do
  let s1 ← wsPlus s
  let c ← connMatch s1
  some (s.length - s1.length + c)

/-- Lazy loop for `(.+?)\s+<connective>`: the group takes `j = 1, 2, ...`
characters (shortest first; DOTALL, so any characters); `s` is the suffix
after the group.  On success returns (group length, total consumed counted
from the start of the group). -/
def lazyConnLoop : Nat → List Char → Option (Nat × Nat)
  | _, [] => none
  | j, s@(_ :: rest) =>
    match wsConn s with
    | some n => some (j, j + n)
    | none => lazyConnLoop (j + 1) rest

/-- Backtracking loop over the whitespace run preceding the lazy group in
`\s+(.+?)\s+<connective>`: `\s+` takes `k` characters, from the maximal run
length down to 1 (backtracking is possible here since `.` also matches
whitespace); for each `k` the lazy group is tried shortest-first.  Returns
(k, group length, consumed after the k whitespace characters). -/
def kLoop (t : List Char) : Nat → Option (Nat × Nat × Nat)
  | 0 => none
  | k + 1 =>
    match lazyConnLoop 1 ((t.drop (k + 1)).drop 1) with
    | some (j, c) => some (k + 1, j, c)
    | none => kLoop t k

/-- Match `\s+(.+?)\s+<connective>` anchored at `s2`, returning the captured
lazy group and the consumed length. -/
def prenomConn (s2 : List Char) : Option (List Char × Nat) :=
  match kLoop s2 (s2.takeWhile pySpace).length with
  | some (k, j, c) => some ((s2.drop k).take j, k + c)
  | none => none

/-- The honorific alternation of patterns 1 and 2, in the source's order
(lowercased; matching is case-insensitive). -/
def honorifics : List (List Char) :=
  ["monsieur".toList, "madame".toList, "herr".toList, "frau".toList,
   "signor".toList, "signora".toList, "mx".toList]

/-- Ordered alternation `(Monsieur|Madame|Herr|Frau|Signor|Signora|Mx)` with
full-continuation backtracking: each alternative is tried in order against
the rest of the pattern `after`. -/
def honLoop {α : Type} (after : List Char → Option α) (pre : List Char) :
    List (List Char) → Option (List Char × α)
  | [] => none
  | h :: hs =>
    match eatLitCI h pre with
    | some rest =>
      match after rest with
      | some a => some (h, a)
      | none => honLoop after pre hs
    | none => honLoop after pre hs

/-- Continuation of pattern 1 after the honorific:
`\s+(\S+)\s+(.+?)\s+<connective>`, returning (nom, prenom, consumed). -/
def p1After (rest : List Char) : Option (List Char × List Char × Nat) := do
  let s1 ← wsPlus rest
  let (nom, s2) ← takeTok s1
  let (prenom, c2) ← prenomConn s2
  some (nom, prenom, (rest.length - s1.length) + nom.length + c2)

/-- Continuation of pattern 2 after the honorific:
`\s+(\S+)\s+<connective>`, returning (nom, consumed). -/
def p2After (rest : List Char) : Option (List Char × Nat) := do
  let s1 ← wsPlus rest
  let (nom, s2) ← takeTok s1
  let c2 ← wsConn s2
  some (nom, (rest.length - s1.length) + nom.length + c2)

/-- Pattern 1 of the cascade,
`^(Monsieur|…|Mx)\s+(\S+)\s+(.+?)\s+vient de vous sugg[ée]rer ceci [àa]\s*.+?:\s*`
(IGNORECASE | DOTALL): returns (honorific lowercased, nom, prenom, match end). -/
def matchP1 (pre : List Char) : Option (List Char × List Char × List Char × Nat) :=
  match honLoop p1After pre honorifics with
  | some (h, (nom, prenom, c)) => some (h, nom, prenom, h.length + c)
  | none => none

/-- Pattern 2 of the cascade, `^(Monsieur|…|Mx)\s+(\S+)\s+<connective>`:
returns (honorific lowercased, nom, match end). -/
def matchP2 (pre : List Char) : Option (List Char × List Char × Nat) :=
  match honLoop p2After pre honorifics with
  | some (h, (nom, c)) => some (h, nom, h.length + c)
  | none => none

/-- Pattern 3 of the cascade, `^(\S+)\s+(.+?)\s+<connective>`:
returns (nom, prenom, match end). -/
def matchP3 (pre : List Char) : Option (List Char × List Char × Nat) := do
  let (nom, s2) ← takeTok pre
  let (prenom, c2) ← prenomConn s2
  some (nom, prenom, nom.length + c2)

/-- Pattern 4 of the cascade, `^(\S+)\s+<connective>`:
returns (nom, match end). -/
def matchP4 (pre : List Char) : Option (List Char × Nat) := do
  let (nom, s2) ← takeTok pre
  let c2 ← wsConn s2
  some (nom, nom.length + c2)

/-- The `GENDER_MAP` table from src/main.py lines 53-61. -/
def GENDER_MAP : List (List Char × List Char) :=
  [("monsieur".toList, "Homme".toList), ("madame".toList, "Femme".toList),
   ("herr".toList, "Homme".toList), ("frau".toList, "Femme".toList),
   ("signor".toList, "Homme".toList), ("signora".toList, "Femme".toList),
   ("mx".toList, "Autre".toList)]

/-- The lookup `GENDER_MAP.get(genre_raw, "Autre")`. -/
def genderLookup (k : List Char) : List Char :=
  ((GENDER_MAP.find? (fun p => p.1 == k)).map (fun p => p.2)).getD "Autre".toList

/-- The parser's output record (the `result` dict of `parse_email_body`). -/
structure ParsedReview where
  genre : List Char
  nom : List Char
  prenom : List Char
  email : List Char
  commentaire : List Char
deriving DecidableEq, Repr

/-- The fallback comment tag of `parse_email_body`
(`f"[FORMAT NON RECONNU] {text_before_email[:500]}"`, including its space). -/
def unrecognizedTag : List Char := "[FORMAT NON RECONNU] ".toList

/-- The function `parse_email_body` from src/main.py lines 369-444: normalize line endings
and strip; search for the mandatory reply marker (returning `none` if
absent); then try the four structural patterns in order on the stripped text
preceding the marker, falling back to the unrecognized-format comment. -/
def parse_email_body (body : List Char) : Option ParsedReview :=
  let text := pyStrip (normNewlines body)
  match findReply text with
  | none => none
  | some (start, tok) =>
    let email := pyStrip tok
    let pre := pyStrip (text.take start)
    match matchP1 pre with
    | some (h, nom, prenom, e) =>
      some ⟨genderLookup h, pyStrip nom, pyStrip prenom, email, pyStrip (pre.drop e)⟩
    | none =>
      match matchP2 pre with
      | some (h, nom, e) =>
        some ⟨genderLookup h, pyStrip nom, [], email, pyStrip (pre.drop e)⟩
      | none =>
        match matchP3 pre with
        | some (nom, prenom, e) =>
          some ⟨[], pyStrip nom, pyStrip prenom, email, pyStrip (pre.drop e)⟩
        | none =>
          match matchP4 pre with
          | some (nom, e) =>
            some ⟨[], pyStrip nom, [], email, pyStrip (pre.drop e)⟩
          | none =>
            some ⟨[], [], [], email, unrecognizedTag ++ pre.take 500⟩

/-- The stripped text preceding the reply marker (`text_before_email` in the
source), recomputed from the body; `[]` when there is no marker. -/
def preOf (body : List Char) : List Char :=
  let text := pyStrip (normNewlines body)
  match findReply text with
  | some (start, _) => pyStrip (text.take start)
  | none => []

/-!  Validators (src/main.py lines 106-191).  The keyword/domain sets are
loaded from config.json at startup; they are modelled as an explicit
configuration record. -/

/-- The filtering configuration supplied by config.json. -/
structure Config where
  email_blacklist : List (List Char)
  spam_keywords : List (List Char)
  disposable_domains : List (List Char)
  suspicious_names : List (List Char)
  comment_spam_exact : List (List Char)
deriving DecidableEq, Repr

/-- Python `email.rsplit("@", 1)` for a string containing `'@'`: split at the
last `'@'`, returning (local part, domain). -/
def rsplitAtSign (e : List Char) : List Char × List Char :=
  let revDom := e.reverse.takeWhile (fun c => c ≠ '@')
  (e.take (e.length - revDom.length - 1), revDom.reverse)

/-- Number of distinct characters, Python `len(set(s))`. -/
def distinctCount (cs : List Char) : Nat := cs.dedup.length

/-- Python `s.lower().strip()`, the normalization applied by all three
validators and by the dedup check of the loop. -/
def normEmail (s : List Char) : List Char := pyStrip (s.map pyLower)

/-- The validator `is_valid_email` from src/main.py lines 106-143: sequential rejection
checks in source order, `True` when none fires. -/
def is_valid_email (cfg : Config) (email : List Char) : Bool :=
  if email.isEmpty then false
  else if cfg.email_blacklist.contains (normEmail email) then false
  else if !(normEmail email).contains '@' || !(normEmail email).contains '.' then false
  else if (rsplitAtSign (normEmail email)).1.length < 3 then false
  else if cfg.disposable_domains.contains (rsplitAtSign (normEmail email)).2 then false
  else if cfg.spam_keywords.contains (rsplitAtSign (normEmail email)).1 then false
  else if pyIsDigit (rsplitAtSign (normEmail email)).1 then false
  else if distinctCount (rsplitAtSign (normEmail email)).1 ≤ 2
            && (rsplitAtSign (normEmail email)).1.length > 3 then false
  else true

/-- The validator `is_valid_name` from src/main.py lines 150-173. -/
def is_valid_name (cfg : Config) (nom prenom : List Char) : Bool :=
  if (normEmail nom).length ≤ 1 || (normEmail prenom).length ≤ 1 then false
  else if cfg.suspicious_names.contains (normEmail nom)
            || cfg.suspicious_names.contains (normEmail prenom) then false
  else if pyIsDigit (normEmail nom) || pyIsDigit (normEmail prenom) then false
  else if distinctCount (normEmail nom) ≤ 1 && (normEmail nom).length > 1 then false
  else if distinctCount (normEmail prenom) ≤ 1 && (normEmail prenom).length > 1 then false
  else true

/-- The validator `is_valid_comment` from src/main.py lines 180-191. -/
def is_valid_comment (cfg : Config) (commentaire : List Char) : Bool :=
  if commentaire.isEmpty then true
  else if cfg.comment_spam_exact.contains (normEmail commentaire) then false
  else true

/-!  The per-message processing loop of `main` (src/main.py lines 589-665),
as a pure step function over an explicit run state.  Fetching a message is an
external API call; a message whose fetch (or body decode) raises is modelled
with `content = none`.  The sender name and reception date are extracted from
headers by plumbing (`get_sender_name` / `get_email_date`) and appear here as
given strings. -/

/-- Successfully fetched message content. -/
structure MsgContent where
  senderName : List Char
  dateReception : List Char
  body : List Char
deriving DecidableEq, Repr

/-- A message of the mailbox: its stable identifier, plus its content when
fetching and decoding succeed (`none` models a raised per-message exception). -/
structure GMessage where
  id : List Char
  content : Option MsgContent
deriving DecidableEq, Repr

/-- A destination row (src/main.py lines 644-656), positional layout. -/
structure Row where
  nomCommerce : List Char
  categorie : List Char
  genre : List Char
  nom : List Char
  prenom : List Char
  nomComplet : List Char
  email : List Char
  statutEmail : List Char
  note : Nat
  dateReception : List Char
  commentaire : List Char
deriving DecidableEq, Repr

/-- The classification of one processed message (the `stats` keys of the
loop, plus acceptance and the caught per-message error). -/
inductive Outcome where
  | fetchError
  | noEmail
  | invalidEmail
  | duplicate
  | invalidName
  | invalidComment
  | accepted
deriving DecidableEq, Repr

/-- The loop's mutable state: the checkpoint set `processed_ids`, the
dedup set `seen_emails`, the accumulated `rows_to_add`, the five `stats`
counters, and the `errors` list. -/
structure RunState where
  processedIds : List (List Char)
  seenEmails : List (List Char)
  rows : List Row
  noEmailCount : Nat
  invalidEmailCount : Nat
  duplicateCount : Nat
  invalidNameCount : Nat
  invalidCommentCount : Nat
  errors : List (List Char)
deriving DecidableEq, Repr

/-- Set-style insertion into the `processed_ids` set. -/
def insertId (ids : List (List Char)) (i : List Char) : List (List Char) :=
  if ids.contains i then ids else ids ++ [i]

/-- The category label written in column B (`DEFAULT_CATEGORY`). -/
def DEFAULT_CATEGORY : List Char := "Fast-food".toList

/-- The row built for an accepted message (src/main.py lines 644-657). -/
def mkRow (c : MsgContent) (p : ParsedReview) : Row :=
  ⟨c.senderName, DEFAULT_CATEGORY, p.genre, p.nom, p.prenom, [],
   p.email, "Pending".toList, 1, c.dateReception, p.commentaire⟩

/-- One iteration of the processing loop (src/main.py lines 597-665): on a
fetch/decode exception the error is recorded and nothing else changes; else
the id is checkpointed unconditionally and the message is classified by the
first failing check in the order no_email → invalid_email → duplicate →
invalid_name → invalid_comment, otherwise accepted.  Returns the outcome
together with the updated state. -/
def processMessage (cfg : Config) (s : RunState) (m : GMessage) : Outcome × RunState :=
  match m.content with
  | none => (.fetchError, { s with errors := s.errors ++ [m.id] })
  | some c =>
    let s1 : RunState := { s with processedIds := insertId s.processedIds m.id }
    match parse_email_body c.body with
    | none => (.noEmail, { s1 with noEmailCount := s1.noEmailCount + 1 })
    | some parsed =>
      if !is_valid_email cfg parsed.email then
        (.invalidEmail, { s1 with invalidEmailCount := s1.invalidEmailCount + 1 })
      else
        let el := normEmail parsed.email
        if s1.seenEmails.contains el then
          (.duplicate, { s1 with duplicateCount := s1.duplicateCount + 1 })
        else
          let s2 : RunState := { s1 with seenEmails := el :: s1.seenEmails }
          if !is_valid_name cfg parsed.nom parsed.prenom then
            (.invalidName, { s2 with invalidNameCount := s2.invalidNameCount + 1 })
          else if !is_valid_comment cfg parsed.commentaire then
            (.invalidComment, { s2 with invalidCommentCount := s2.invalidCommentCount + 1 })
          else
            (.accepted, { s2 with rows := s2.rows ++ [mkRow c parsed] })

/-- The classification alone. -/
def classify (cfg : Config) (s : RunState) (m : GMessage) : Outcome :=
  (processMessage cfg s m).1

/-- The loop over the new messages. -/
def runLoop (cfg : Config) (s : RunState) (msgs : List GMessage) : RunState :=
  msgs.foldl (fun st m => (processMessage cfg st m).2) s

/-- The initial state of a run (src/main.py lines 540-595): the checkpoint
ids are loaded from the persisted state and the dedup set is seeded from the
destination's email column. -/
def initState (ckpt existingEmails : List (List Char)) : RunState :=
  ⟨ckpt, existingEmails, [], 0, 0, 0, 0, 0, []⟩

/-- A run of the pipeline over an unchanged mailbox (src/main.py lines
540-711): filter out already-checkpointed ids, process the remainder, and
persist the final `processed_ids` (local-file checkpoint backend, which
stores the set in full).  Returns the final state together with the list of
newly processed messages. -/
def runPipeline (cfg : Config) (mailbox : List GMessage)
    (ckpt existingEmails : List (List Char)) : RunState × List GMessage :=
  let newMsgs := mailbox.filter (fun m => !ckpt.contains m.id)
  (runLoop cfg (initState ckpt existingEmails) newMsgs, newMsgs)

/-- Total number of dispositions recorded in a state: accepted rows, the
five outcome counters, and per-message errors. -/
def totals (s : RunState) : Nat :=
  s.rows.length + s.noEmailCount + s.invalidEmailCount + s.duplicateCount +
    s.invalidNameCount + s.invalidCommentCount + s.errors.length

/-!  Theorems. -/

/-- Helper: `takeWhile` only keeps satisfying elements. -/
theorem all_takeWhile (p : Char → Bool) (l : List Char) :
    (l.takeWhile p).all p = true := by
  induction l with
  | nil => rfl
  | cons c cs ih =>
    rw [List.takeWhile_cons]
    cases hp : p c
    · rfl
    · simp [hp, ih]

/-- Helper: stripping a whitespace-free list is the identity. -/
theorem pyStrip_of_all_nonspace (l : List Char)
    (h : l.all (fun c => !pySpace c) = true) : pyStrip l = l := by
  have hdrop : ∀ m : List Char, m.all (fun c => !pySpace c) = true →
      m.dropWhile pySpace = m := by
    intro m hm
    cases m with
    | nil => rfl
    | cons c cs =>
      rw [List.dropWhile_cons]
      simp only [List.all_cons, Bool.and_eq_true, Bool.not_eq_true'] at hm
      simp [hm.1]
  unfold pyStrip
  rw [hdrop l h, hdrop l.reverse (by simpa using h), List.reverse_reverse]

/-- Helper: a token with an interior `'@'` is non-empty and contains `'@'`. -/
theorem hasInteriorAt_props (tok : List Char) (h : hasInteriorAt tok = true) :
    tok ≠ [] ∧ '@' ∈ tok := by
  unfold hasInteriorAt at h
  have hmem : '@' ∈ (tok.drop 1).dropLast := List.elem_iff.mp h
  have hsub : List.Sublist ((tok.drop 1).dropLast) tok :=
    List.Sublist.trans (List.dropLast_sublist _) (List.drop_sublist _ _)
  refine ⟨?_, hsub.subset hmem⟩
  intro hnil
  rw [hnil] at hmem
  exact absurd hmem (List.not_mem_nil '@')

/-- Helper: a successful `re.search` means the anchored pattern matched at
the reported start position. -/
theorem findReply_some_tryReplyAt (s : List Char) (start : Nat) (tok : List Char)
    (h : findReply s = some (start, tok)) : tryReplyAt (s.drop start) = some tok := by
  induction s generalizing start with
  | nil => exact Option.noConfusion h
  | cons c cs ih =>
    unfold findReply at h
    cases ht : tryReplyAt (c :: cs) with
    | some t =>
      rw [ht] at h
      have h' := Option.some.inj h
      obtain ⟨h1, h2⟩ := Prod.mk.injEq .. ▸ h'
      rw [← h1, ← h2]
      exact ht
    | none =>
      rw [ht] at h
      cases hf : findReply cs with
      | none =>
        rw [hf] at h
        exact Option.noConfusion h
      | some q =>
        rcases q with ⟨qs, qt⟩
        rw [hf] at h
        simp only [Option.map_some'] at h
        have h' := Option.some.inj h
        obtain ⟨h1, h2⟩ := Prod.mk.injEq .. ▸ h'
        subst h2
        rw [← h1]
        exact ih qs hf

/-- Helper: the captured group of the email pattern is a whitespace-free run
with an interior `'@'`. -/
theorem tryReplyAt_some_props (s tok : List Char) (h : tryReplyAt s = some tok) :
    tok.all (fun c => !pySpace c) = true ∧ hasInteriorAt tok = true := by
  unfold tryReplyAt at h
  split at h
  · exact Option.noConfusion h
  · split at h
    · exact Option.noConfusion h
    · split at h
      · exact Option.noConfusion h
      · split_ifs at h with hint
        obtain rfl := Option.some.inj h
        exact ⟨all_takeWhile _ _, hint⟩

/-- Claim C3: when the reply marker is found but none of the four structural
patterns matches the preamble, the parser returns a record with empty genre,
nom and prenom, a non-empty email, and a comment equal to the
unrecognized-format tag followed by at most the first 500 characters of the
preamble. -/
theorem c3_unrecognized_format :
    ∀ (body : List Char) (start : Nat) (tok : List Char),
      findReply (pyStrip (normNewlines body)) = some (start, tok) →
      matchP1 (preOf body) = none → matchP2 (preOf body) = none →
      matchP3 (preOf body) = none → matchP4 (preOf body) = none →
      (parse_email_body body = some ⟨[], [], [], pyStrip tok,
          unrecognizedTag ++ (preOf body).take 500⟩ ∧
       pyStrip tok ≠ [] ∧
       ((preOf body).take 500).length ≤ 500) := by
  intro body start tok hfr h1 h2 h3 h4
  have hpre : preOf body = pyStrip ((pyStrip (normNewlines body)).take start) := by
    simp only [preOf, hfr]
  rw [hpre] at h1 h2 h3 h4
  have hprops := tryReplyAt_some_props _ _ (findReply_some_tryReplyAt _ _ _ hfr)
  have hstrip : pyStrip tok = tok := pyStrip_of_all_nonspace tok hprops.1
  refine ⟨?_, ?_, ?_⟩
  · simp only [parse_email_body, hfr, h1, h2, h3, h4, hpre]
  · rw [hstrip]
    exact (hasInteriorAt_props tok hprops.2).1
  · rw [List.length_take]
    exact min_le_left _ _

/-- Claim C3 witness: a concrete unstructured message. -/
theorem c3_unrecognized_format_witness :
    parse_email_body ("random text Pour répondre: ab@cd").toList
      = some ⟨[], [], [], pyStrip ("ab@cd".toList),
          unrecognizedTag ++ ((preOf ("random text Pour répondre: ab@cd").toList).take 500)⟩ ∧
    pyStrip ("ab@cd".toList) ≠ [] ∧
    (((preOf ("random text Pour répondre: ab@cd").toList)).take 500).length ≤ 500 :=
  c3_unrecognized_format ("random text Pour répondre: ab@cd").toList 12 ("ab@cd".toList)
    (by decide) (by decide) (by decide) (by decide) (by decide)

/-- A case variant of the reply-marker literal `Pour r[ée]pondre:`. -/
def isMarker (mk : List Char) : Prop :=
  mk.map pyLower = markerLit1 ++ 'é' :: markerLit2 ∨
  mk.map pyLower = markerLit1 ++ 'e' :: markerLit2

/-- The reply-marker pattern occurs in the text: some position splits it into
an arbitrary prefix, a case variant of "Pour r[ée]pondre:", optional
whitespace, and a whitespace-free token carrying an interior `'@'`. -/
def replyMarkerOccurs (text : List Char) : Prop :=
  ∃ pre mk ws tok rest : List Char,
    text = pre ++ mk ++ ws ++ tok ++ rest ∧ isMarker mk ∧
    ws.all pySpace = true ∧ tok.all (fun c => !pySpace c) = true ∧
    hasInteriorAt tok = true

/-- Helper: soundness of the case-insensitive literal matcher. -/
theorem eatLitCI_some_decomp (lit : List Char) :
    ∀ (s r : List Char), eatLitCI lit s = some r →
      ∃ pre, s = pre ++ r ∧ pre.map pyLower = lit := by
  induction lit with
  | nil =>
    intro s r h
    simp only [eatLitCI] at h
    obtain rfl := Option.some.inj h
    exact ⟨[], rfl, rfl⟩
  | cons l ls ih =>
    intro s r h
    cases s with
    | nil => exact Option.noConfusion h
    | cons c cs =>
      unfold eatLitCI at h
      split_ifs at h with hc
      · obtain ⟨pre, hpre, hmap⟩ := ih cs r h
        exact ⟨c :: pre, by rw [hpre]; rfl, by simp [hmap, hc]⟩

/-- Helper: completeness of the case-insensitive literal matcher. -/
theorem eatLitCI_of_decomp (pre : List Char) :
    ∀ (lit r : List Char), pre.map pyLower = lit →
      eatLitCI lit (pre ++ r) = some r := by
  induction pre with
  | nil =>
    intro lit r h
    rw [← h]
    simp only [List.map_nil, List.nil_append, eatLitCI]
  | cons c cs ih =>
    intro lit r h
    rw [← h]
    show (if pyLower c = pyLower c then eatLitCI (cs.map pyLower) (cs ++ r) else none)
      = some r
    rw [if_pos rfl]
    exact ih _ r rfl

/-- Helper: soundness of the character-class matcher. -/
theorem oneOfCI_some_decomp (chars s r : List Char) (h : oneOfCI chars s = some r) :
    ∃ c, s = c :: r ∧ chars.contains (pyLower c) = true := by
  cases s with
  | nil => exact Option.noConfusion h
  | cons c cs =>
    have h' : (if chars.contains (pyLower c) = true then some cs else none) = some r := h
    split_ifs at h' with hc
    obtain rfl := Option.some.inj h'
    exact ⟨c, rfl, hc⟩

/-- Helper: completeness of the character-class matcher. -/
theorem oneOfCI_of (chars : List Char) (c : Char) (r : List Char)
    (h : chars.contains (pyLower c) = true) : oneOfCI chars (c :: r) = some r := by
  show (if chars.contains (pyLower c) = true then some r else none) = some r
  rw [if_pos h]

/-- Helper: `dropWhile` jumps over a satisfying prefix. -/
theorem dropWhile_append_all (p : Char → Bool) :
    ∀ ws u : List Char, ws.all p = true → (ws ++ u).dropWhile p = u.dropWhile p := by
  intro ws
  induction ws with
  | nil => intro u h; rfl
  | cons c cs ih =>
    intro u h
    simp only [List.all_cons, Bool.and_eq_true] at h
    simp only [List.cons_append, List.dropWhile_cons, h.1, if_true]
    exact ih u h.2

/-- Helper: `dropWhile` stops at an unsatisfying head. -/
theorem dropWhile_cons_neg (p : Char → Bool) (c : Char) (u : List Char)
    (h : p c = false) : (c :: u).dropWhile p = c :: u := by
  simp [List.dropWhile_cons, h]

/-- Helper: `takeWhile` swallows a satisfying prefix whole. -/
theorem takeWhile_append_all (p : Char → Bool) :
    ∀ tk u : List Char, tk.all p = true → (tk ++ u).takeWhile p = tk ++ u.takeWhile p := by
  intro tk
  induction tk with
  | nil => intro u h; rfl
  | cons c cs ih =>
    intro u h
    simp only [List.all_cons, Bool.and_eq_true] at h
    simp only [List.cons_append, List.takeWhile_cons, h.1, if_true]
    rw [ih u h.2]

/-- Helper: interior `'@'` characterized by a splitting. -/
theorem hasInteriorAt_iff (tok : List Char) :
    hasInteriorAt tok = true ↔ ∃ a b, tok = a ++ '@' :: b ∧ a ≠ [] ∧ b ≠ [] := by
  constructor
  · intro h
    unfold hasInteriorAt at h
    have hmem : '@' ∈ (tok.drop 1).dropLast := List.elem_iff.mp h
    cases tok with
    | nil => simp at hmem
    | cons t0 ts =>
      have hmem' : '@' ∈ ts.dropLast := hmem
      obtain ⟨l1, l2, hsplit⟩ := List.append_of_mem hmem'
      have hts : ts ≠ [] := by
        intro h0
        rw [h0] at hmem'
        simp at hmem'
      have hdl := List.dropLast_append_getLast hts
      refine ⟨t0 :: l1, l2 ++ [ts.getLast hts], ?_, by simp, by simp⟩
      rw [show t0 :: ts = t0 :: (ts.dropLast ++ [ts.getLast hts]) by rw [hdl], hsplit]
      simp
  · rintro ⟨a, b, rfl, ha, hb⟩
    unfold hasInteriorAt
    apply List.elem_iff.mpr
    cases a with
    | nil => exact absurd rfl ha
    | cons a0 as =>
      have h1 : ((a0 :: as) ++ '@' :: b).drop 1 = as ++ '@' :: b := rfl
      rw [h1, List.dropLast_append_of_ne_nil _ (by simp : ('@' :: b) ≠ [])]
      cases b with
      | nil => exact absurd rfl hb
      | cons b0 bs =>
        rw [List.dropLast_cons₂]
        exact List.mem_append_right _ (List.mem_cons_self _ _)

/-- Helper: an interior `'@'` survives appending on the right. -/
theorem hasInteriorAt_append (tok u : List Char) (h : hasInteriorAt tok = true) :
    hasInteriorAt (tok ++ u) = true := by
  obtain ⟨a, b, rfl, ha, hb⟩ := (hasInteriorAt_iff tok).mp h
  apply (hasInteriorAt_iff _).mpr
  refine ⟨a, b ++ u, by simp, ha, ?_⟩
  simp [hb]

/-- Helper: the scan fails exactly when the anchored pattern fails at every
position. -/
theorem findReply_eq_none_iff (s : List Char) :
    findReply s = none ↔ ∀ i, tryReplyAt (s.drop i) = none := by
  induction s with
  | nil =>
    simp only [List.drop_nil]
    exact ⟨fun h i => rfl, fun h => rfl⟩
  | cons c cs ih =>
    constructor
    · intro h i
      unfold findReply at h
      cases ht : tryReplyAt (c :: cs) with
      | some t =>
        rw [ht] at h
        exact Option.noConfusion h
      | none =>
        rw [ht] at h
        cases i with
        | zero => exact ht
        | succ n =>
          have hcs : findReply cs = none := by
            cases hf : findReply cs with
            | none => rfl
            | some q =>
              rw [hf] at h
              exact Option.noConfusion h
          exact (ih.mp hcs) n
    · intro h
      have h0 : tryReplyAt (c :: cs) = none := h 0
      have hcs : findReply cs = none := ih.mpr (fun i => h (i + 1))
      unfold findReply
      simp [h0, hcs]

/-- Helper: a successful anchored match decomposes its input into marker,
whitespace, token and remainder. -/
theorem tryReplyAt_some_decomp (s tok : List Char) (h : tryReplyAt s = some tok) :
    ∃ mk ws rest, s = mk ++ (ws ++ (tok ++ rest)) ∧ isMarker mk ∧
      ws.all pySpace = true ∧ tok.all (fun c => !pySpace c) = true ∧
      hasInteriorAt tok = true := by
  unfold tryReplyAt at h
  split at h
  · exact Option.noConfusion h
  · next r1 heq1 =>
    split at h
    · exact Option.noConfusion h
    · next r2 heq2 =>
      split at h
      · exact Option.noConfusion h
      · next r3 heq3 =>
        split_ifs at h with hint
        obtain rfl := Option.some.inj h
        obtain ⟨mk1, hs1, hmap1⟩ := eatLitCI_some_decomp markerLit1 _ r1 heq1
        obtain ⟨c, hc1, hcontains⟩ := oneOfCI_some_decomp _ r1 r2 heq2
        obtain ⟨mk2, hs2, hmap2⟩ := eatLitCI_some_decomp markerLit2 r2 r3 heq3
        have hx : pyLower c = 'é' ∨ pyLower c = 'e' := by
          have := List.elem_iff.mp hcontains
          simp only [List.mem_cons, List.not_mem_nil, or_false] at this
          exact this
        refine ⟨mk1 ++ c :: mk2, r3.takeWhile pySpace,
          (r3.dropWhile pySpace).dropWhile (fun c => !pySpace c), ?_, ?_,
          all_takeWhile _ _, all_takeWhile _ _, hint⟩
        · rw [hs1, hc1, hs2]
          have hr3 : r3 = r3.takeWhile pySpace ++ r3.dropWhile pySpace :=
            (List.takeWhile_append_dropWhile ..).symm
          have hr4 : r3.dropWhile pySpace =
              (r3.dropWhile pySpace).takeWhile (fun c => !pySpace c) ++
              (r3.dropWhile pySpace).dropWhile (fun c => !pySpace c) :=
            (List.takeWhile_append_dropWhile ..).symm
          conv_lhs => rw [hr3, hr4]
          simp [List.append_assoc]
        · rcases hx with hx | hx
          · exact Or.inl (by simp [hmap1, hmap2, hx])
          · exact Or.inr (by simp [hmap1, hmap2, hx])

/-- Helper: the anchored pattern succeeds on any marker decomposition. -/
theorem tryReplyAt_complete (mk ws tok rest : List Char)
    (hmk : isMarker mk) (hws : ws.all pySpace = true)
    (htok : tok.all (fun c => !pySpace c) = true)
    (hint : hasInteriorAt tok = true) :
    tryReplyAt (mk ++ (ws ++ (tok ++ rest))) ≠ none := by
  have hx : ∃ x, (x = 'é' ∨ x = 'e') ∧ mk.map pyLower = markerLit1 ++ x :: markerLit2 := by
    rcases hmk with h | h
    · exact ⟨'é', Or.inl rfl, h⟩
    · exact ⟨'e', Or.inr rfl, h⟩
  obtain ⟨x, hxe, hmap⟩ := hx
  have h1 : (mk.take 6).map pyLower = markerLit1 := by
    rw [List.map_take, hmap]
    rfl
  have h2 : (mk.drop 6).map pyLower = x :: markerLit2 := by
    rw [List.map_drop, hmap]
    rfl
  cases hd : mk.drop 6 with
  | nil =>
    rw [hd] at h2
    exact absurd h2 (by simp)
  | cons c mk2 =>
    rw [hd] at h2
    simp only [List.map_cons, List.cons.injEq] at h2
    have hsplit : mk = mk.take 6 ++ (c :: mk2) := by
      conv_lhs => rw [← List.take_append_drop 6 mk]
      rw [hd]
    rw [hsplit]
    have hassoc : (mk.take 6 ++ (c :: mk2)) ++ (ws ++ (tok ++ rest)) =
        mk.take 6 ++ (c :: (mk2 ++ (ws ++ (tok ++ rest)))) := by simp
    rw [hassoc]
    unfold tryReplyAt
    rw [eatLitCI_of_decomp (mk.take 6) markerLit1 _ h1]
    simp only []
    rw [oneOfCI_of _ c _ (by rw [h2.1]; rcases hxe with rfl | rfl <;> rfl)]
    simp only []
    rw [eatLitCI_of_decomp mk2 markerLit2 _ h2.2]
    simp only []
    have htn : tok ≠ [] := (hasInteriorAt_props tok hint).1
    have hdw : (ws ++ (tok ++ rest)).dropWhile pySpace = tok ++ rest := by
      rw [dropWhile_append_all pySpace ws (tok ++ rest) hws]
      cases tok with
      | nil => exact absurd rfl htn
      | cons t0 tok' =>
        have ht0 : pySpace t0 = false := by
          simp only [List.all_cons, Bool.and_eq_true, Bool.not_eq_true'] at htok
          exact htok.1
        rw [List.cons_append]
        exact dropWhile_cons_neg pySpace t0 _ ht0
    rw [hdw, takeWhile_append_all _ tok rest htok]
    rw [if_pos (hasInteriorAt_append tok _ hint)]
    simp

/-- Helper: when the marker search succeeds, the parser yields a record and
that record's email field is the stripped captured token. -/
theorem parse_some_shape (body : List Char) (start : Nat) (tok : List Char)
    (hfr : findReply (pyStrip (normNewlines body)) = some (start, tok)) :
    parse_email_body body ≠ none ∧
    ∀ r : ParsedReview, parse_email_body body = some r → r.email = pyStrip tok := by
  cases hm1 : matchP1 (pyStrip ((pyStrip (normNewlines body)).take start)) with
  | some q =>
    rcases q with ⟨hv, nom, prenom, e⟩
    constructor
    · simp [parse_email_body, hfr, hm1]
    · intro r hr
      simp only [parse_email_body, hfr, hm1] at hr
      obtain rfl := Option.some.inj hr
      rfl
  | none =>
    cases hm2 : matchP2 (pyStrip ((pyStrip (normNewlines body)).take start)) with
    | some q =>
      rcases q with ⟨hv, nom, e⟩
      constructor
      · simp [parse_email_body, hfr, hm1, hm2]
      · intro r hr
        simp only [parse_email_body, hfr, hm1, hm2] at hr
        obtain rfl := Option.some.inj hr
        rfl
    | none =>
      cases hm3 : matchP3 (pyStrip ((pyStrip (normNewlines body)).take start)) with
      | some q =>
        rcases q with ⟨nom, prenom, e⟩
        constructor
        · simp [parse_email_body, hfr, hm1, hm2, hm3]
        · intro r hr
          simp only [parse_email_body, hfr, hm1, hm2, hm3] at hr
          obtain rfl := Option.some.inj hr
          rfl
      | none =>
        cases hm4 : matchP4 (pyStrip ((pyStrip (normNewlines body)).take start)) with
        | some q =>
          rcases q with ⟨nom, e⟩
          constructor
          · simp [parse_email_body, hfr, hm1, hm2, hm3, hm4]
          · intro r hr
            simp only [parse_email_body, hfr, hm1, hm2, hm3, hm4] at hr
            obtain rfl := Option.some.inj hr
            rfl
        | none =>
          constructor
          · simp [parse_email_body, hfr, hm1, hm2, hm3, hm4]
          · intro r hr
            simp only [parse_email_body, hfr, hm1, hm2, hm3, hm4] at hr
            obtain rfl := Option.some.inj hr
            rfl

/-- Claim C1: `parse_email_body` returns `none` exactly when the normalized
body contains no occurrence of the reply-marker pattern ("Pour répondre:" in
any case variant, followed by optional whitespace and a whitespace-free token
with an interior `'@'`); and every record it does return carries a non-empty
email containing `'@'`. -/
theorem c1_none_iff_no_marker :
    ∀ body : List Char,
      (parse_email_body body = none ↔
        ¬ replyMarkerOccurs (pyStrip (normNewlines body))) ∧
      (∀ r : ParsedReview, parse_email_body body = some r →
        r.email ≠ [] ∧ '@' ∈ r.email) := by
  intro body
  cases hfr : findReply (pyStrip (normNewlines body)) with
  | none =>
    have hnone : parse_email_body body = none := by
      simp [parse_email_body, hfr]
    refine ⟨⟨fun h hocc => ?_, fun h => hnone⟩, fun r hr => ?_⟩
    · obtain ⟨pre, mk, ws, tok, rest, htext, hmk, hws, htok, hint⟩ := hocc
      have h1 := (findReply_eq_none_iff _).mp hfr pre.length
      have hre : pre ++ mk ++ ws ++ tok ++ rest =
          pre ++ (mk ++ (ws ++ (tok ++ rest))) := by
        simp [List.append_assoc]
      rw [htext, hre, List.drop_left] at h1
      exact tryReplyAt_complete mk ws tok rest hmk hws htok hint h1
    · rw [hnone] at hr
      exact Option.noConfusion hr
  | some st =>
    rcases st with ⟨start, tok⟩
    have hshape := parse_some_shape body start tok hfr
    have htry := findReply_some_tryReplyAt _ _ _ hfr
    have hprops := tryReplyAt_some_props _ _ htry
    have hstrip : pyStrip tok = tok := pyStrip_of_all_nonspace tok hprops.1
    constructor
    · constructor
      · intro h
        exact absurd h hshape.1
      · intro hno
        exfalso
        apply hno
        obtain ⟨mk, ws, rest, hsplit, hmk, hws, htok, hint⟩ :=
          tryReplyAt_some_decomp _ _ htry
        refine ⟨(pyStrip (normNewlines body)).take start, mk, ws, tok, rest, ?_,
          hmk, hws, htok, hint⟩
        conv_lhs => rw [← List.take_append_drop start (pyStrip (normNewlines body))]
        rw [hsplit]
        simp [List.append_assoc]
    · intro r hr
      have hemail := hshape.2 r hr
      rw [hemail, hstrip]
      exact hasInteriorAt_props tok hprops.2

/-- Claim C1 witness: the iff and the record shape at concrete inputs. -/
theorem c1_none_iff_no_marker_witness :
    (parse_email_body ("no marker here at all").toList = none ↔
      ¬ replyMarkerOccurs (pyStrip (normNewlines ("no marker here at all").toList))) ∧
    (("ab@cd".toList : List Char) ≠ [] ∧ '@' ∈ ("ab@cd".toList : List Char)) :=
  ⟨(c1_none_iff_no_marker ("no marker here at all").toList).1,
   (c1_none_iff_no_marker ("random text Pour répondre: ab@cd").toList).2
     ⟨[], [], [], "ab@cd".toList, unrecognizedTag ++
        (preOf ("random text Pour répondre: ab@cd").toList).take 500⟩
     (by decide)⟩

/-- Helper: a name whose normalized form has length at most 1 (on either
side) is always rejected by `is_valid_name`. -/
theorem is_valid_name_short (cfg : Config) (nom prenom : List Char)
    (h : (normEmail nom).length ≤ 1 ∨ (normEmail prenom).length ≤ 1) :
    is_valid_name cfg nom prenom = false := by
  unfold is_valid_name
  rw [if_pos]
  rcases h with h | h <;> simp [h]

/-- Claim C9: patterns 2 and 4 and the unrecognized-format fallback always
produce an empty prenom; `is_valid_name` rejects whenever either normalized
name has length at most 1; hence a record can pass name validation only if
the preamble was matched by pattern 1 or by pattern 3. -/
theorem c9_only_patterns_1_3_acceptable :
    (∀ (cfg : Config) (nom prenom : List Char),
      (normEmail nom).length ≤ 1 ∨ (normEmail prenom).length ≤ 1 →
      is_valid_name cfg nom prenom = false) ∧
    (∀ (body : List Char) (r : ParsedReview),
      parse_email_body body = some r →
      matchP1 (preOf body) = none →
      (matchP2 (preOf body) ≠ none ∨ matchP3 (preOf body) = none) →
      r.prenom = []) ∧
    (∀ (cfg : Config) (body : List Char) (r : ParsedReview),
      parse_email_body body = some r →
      is_valid_name cfg r.nom r.prenom = true →
      (matchP1 (preOf body) ≠ none ∨
       (matchP1 (preOf body) = none ∧ matchP2 (preOf body) = none ∧
        matchP3 (preOf body) ≠ none))) := by
  refine ⟨is_valid_name_short, ?_, ?_⟩
  · intro body r hp hm1 hor
    simp only [parse_email_body] at hp
    cases hfr : findReply (pyStrip (normNewlines body)) with
    | none =>
      rw [hfr] at hp
      exact Option.noConfusion hp
    | some st =>
      rcases st with ⟨start, tok⟩
      have hpre : preOf body = pyStrip ((pyStrip (normNewlines body)).take start) := by
        simp only [preOf, hfr]
      rw [hpre] at hm1 hor
      cases hm2 : matchP2 (pyStrip ((pyStrip (normNewlines body)).take start)) with
      | some q =>
        rcases q with ⟨hv, nom, e⟩
        simp only [hfr, hm1, hm2] at hp
        obtain rfl := Option.some.inj hp
        rfl
      | none =>
        rcases hor with h2ne | hm3
        · exact absurd hm2 h2ne
        · cases hm4 : matchP4 (pyStrip ((pyStrip (normNewlines body)).take start)) with
          | some q =>
            rcases q with ⟨nom, e⟩
            simp only [hfr, hm1, hm2, hm3, hm4] at hp
            obtain rfl := Option.some.inj hp
            rfl
          | none =>
            simp only [hfr, hm1, hm2, hm3, hm4] at hp
            obtain rfl := Option.some.inj hp
            rfl
  · intro cfg body r hp hvalid
    simp only [parse_email_body] at hp
    cases hfr : findReply (pyStrip (normNewlines body)) with
    | none =>
      rw [hfr] at hp
      exact Option.noConfusion hp
    | some st =>
      rcases st with ⟨start, tok⟩
      have hpre : preOf body = pyStrip ((pyStrip (normNewlines body)).take start) := by
        simp only [preOf, hfr]
      rw [hpre]
      cases hm1 : matchP1 (pyStrip ((pyStrip (normNewlines body)).take start)) with
      | some q =>
        left
        exact fun hfalse => Option.noConfusion hfalse
      | none =>
        cases hm2 : matchP2 (pyStrip ((pyStrip (normNewlines body)).take start)) with
        | some q =>
          rcases q with ⟨hv, nom, e⟩
          simp only [hfr, hm1, hm2] at hp
          have hpr : r.prenom = [] := by
            obtain rfl := Option.some.inj hp
            rfl
          rw [is_valid_name_short cfg r.nom r.prenom (Or.inr (by rw [hpr]; decide))] at hvalid
          exact Bool.noConfusion hvalid
        | none =>
          cases hm3 : matchP3 (pyStrip ((pyStrip (normNewlines body)).take start)) with
          | some q =>
            right
            refine ⟨rfl, rfl, ?_⟩
            exact fun hfalse => Option.noConfusion hfalse
          | none =>
            cases hm4 : matchP4 (pyStrip ((pyStrip (normNewlines body)).take start)) with
            | some q =>
              rcases q with ⟨nom, e⟩
              simp only [hfr, hm1, hm2, hm3, hm4] at hp
              have hpr : r.prenom = [] := by
                obtain rfl := Option.some.inj hp
                rfl
              rw [is_valid_name_short cfg r.nom r.prenom (Or.inr (by rw [hpr]; decide))] at hvalid
              exact Bool.noConfusion hvalid
            | none =>
              simp only [hfr, hm1, hm2, hm3, hm4] at hp
              have hpr : r.prenom = [] := by
                obtain rfl := Option.some.inj hp
                rfl
              rw [is_valid_name_short cfg r.nom r.prenom (Or.inr (by rw [hpr]; decide))] at hvalid
              exact Bool.noConfusion hvalid

/-- Claim C9 witness: the sample message is accepted by name validation and
indeed parsed by pattern 1. -/
theorem c9_only_patterns_1_3_acceptable_witness :
    matchP1 (preOf ("Monsieur Dupont Jean vient de vous suggérer ceci à Geneva: Great service! Pour répondre: jean.dupont@example.com").toList) ≠ none ∨
    (matchP1 (preOf ("Monsieur Dupont Jean vient de vous suggérer ceci à Geneva: Great service! Pour répondre: jean.dupont@example.com").toList) = none ∧
     matchP2 (preOf ("Monsieur Dupont Jean vient de vous suggérer ceci à Geneva: Great service! Pour répondre: jean.dupont@example.com").toList) = none ∧
     matchP3 (preOf ("Monsieur Dupont Jean vient de vous suggérer ceci à Geneva: Great service! Pour répondre: jean.dupont@example.com").toList) ≠ none) :=
  c9_only_patterns_1_3_acceptable.2.2 ⟨[], [], [], [], []⟩
    ("Monsieur Dupont Jean vient de vous suggérer ceci à Geneva: Great service! Pour répondre: jean.dupont@example.com").toList
    ⟨"Homme".toList, "Dupont".toList, "Jean".toList,
      "jean.dupont@example.com".toList, "Great service!".toList⟩
    (by decide) (by decide)

/-- Helper: the gender lookup only produces the three table values. -/
theorem genderLookup_range (k : List Char) :
    genderLookup k = "Homme".toList ∨ genderLookup k = "Femme".toList ∨
    genderLookup k = "Autre".toList := by
  unfold genderLookup
  cases hf : GENDER_MAP.find? (fun p => p.1 == k) with
  | none =>
    right; right
    rfl
  | some q =>
    have hq := List.mem_of_find?_eq_some hf
    simp only [GENDER_MAP, List.mem_cons, List.not_mem_nil, or_false] at hq
    rcases hq with rfl | rfl | rfl | rfl | rfl | rfl | rfl <;> simp

/-- Claim C4 counterexample: a message whose preamble begins with the
honorific "Dr", which is outside the lookup table, is parsed with genre ""
(falling through to the genre-less pattern 3), not "Autre". -/
theorem c4_counterexample :
    parse_email_body ("Dr Dupont Jean vient de vous suggérer ceci à X: hi Pour répondre: ab@cd.ef").toList
        = some ⟨[], "Dr".toList, "Dupont Jean".toList, "ab@cd.ef".toList, "hi".toList⟩ ∧
    (preOf ("Dr Dupont Jean vient de vous suggérer ceci à X: hi Pour répondre: ab@cd.ef").toList).takeWhile
        (fun c => !pySpace c) = "Dr".toList ∧
    GENDER_MAP.find? (fun q => q.1 == "dr".toList) = none ∧
    ("dr".toList ∈ honorifics → False) ∧
    ([] : List Char) ≠ "Autre".toList := by
  exact ⟨by decide, by decide, by decide, by decide, by decide⟩

/-- Claim C4 (amended): a preamble-leading token outside the parser's
honorific alternation is not assigned "Autre" — the honorific patterns simply
do not apply and the genre stays empty; when neither honorific pattern
matches, the genre is the empty string; and the returned genre is always one
of Homme, Femme, Autre, "". -/
theorem c4_genre_range :
    ∀ (body : List Char) (r : ParsedReview), parse_email_body body = some r →
      ((r.genre = "Homme".toList ∨ r.genre = "Femme".toList ∨
        r.genre = "Autre".toList ∨ r.genre = []) ∧
       (matchP1 (preOf body) = none → matchP2 (preOf body) = none → r.genre = [])) := by
  intro body r hp
  simp only [parse_email_body] at hp
  cases hfr : findReply (pyStrip (normNewlines body)) with
  | none =>
    rw [hfr] at hp
    exact Option.noConfusion hp
  | some st =>
    rcases st with ⟨start, tok⟩
    have hpre : preOf body = pyStrip ((pyStrip (normNewlines body)).take start) := by
      simp only [preOf, hfr]
    rw [hpre]
    cases hm1 : matchP1 (pyStrip ((pyStrip (normNewlines body)).take start)) with
    | some q =>
      rcases q with ⟨hv, nom, prenom, e⟩
      simp only [hfr, hm1] at hp
      obtain rfl := Option.some.inj hp
      refine ⟨?_, ?_⟩
      · rcases genderLookup_range hv with h | h | h <;> simp [h]
      · intro hfalse
        exact Option.noConfusion hfalse
    | none =>
      cases hm2 : matchP2 (pyStrip ((pyStrip (normNewlines body)).take start)) with
      | some q =>
        rcases q with ⟨hv, nom, e⟩
        simp only [hfr, hm1, hm2] at hp
        obtain rfl := Option.some.inj hp
        refine ⟨?_, ?_⟩
        · rcases genderLookup_range hv with h | h | h <;> simp [h]
        · intro hf1 hfalse
          exact Option.noConfusion hfalse
      | none =>
        cases hm3 : matchP3 (pyStrip ((pyStrip (normNewlines body)).take start)) with
        | some q =>
          rcases q with ⟨nom, prenom, e⟩
          simp only [hfr, hm1, hm2, hm3] at hp
          obtain rfl := Option.some.inj hp
          exact ⟨Or.inr (Or.inr (Or.inr rfl)), fun hf1 hf2 => rfl⟩
        | none =>
          cases hm4 : matchP4 (pyStrip ((pyStrip (normNewlines body)).take start)) with
          | some q =>
            rcases q with ⟨nom, e⟩
            simp only [hfr, hm1, hm2, hm3, hm4] at hp
            obtain rfl := Option.some.inj hp
            exact ⟨Or.inr (Or.inr (Or.inr rfl)), fun hf1 hf2 => rfl⟩
          | none =>
            simp only [hfr, hm1, hm2, hm3, hm4] at hp
            obtain rfl := Option.some.inj hp
            exact ⟨Or.inr (Or.inr (Or.inr rfl)), fun hf1 hf2 => rfl⟩

/-- Claim C4 witness: the amended statement applied to the sample message. -/
theorem c4_genre_range_witness :
    (ParsedReview.genre ⟨"Homme".toList, "Dupont".toList, "Jean".toList,
        "jean.dupont@example.com".toList, "Great service!".toList⟩ = "Homme".toList ∨
     ParsedReview.genre ⟨"Homme".toList, "Dupont".toList, "Jean".toList,
        "jean.dupont@example.com".toList, "Great service!".toList⟩ = "Femme".toList ∨
     ParsedReview.genre ⟨"Homme".toList, "Dupont".toList, "Jean".toList,
        "jean.dupont@example.com".toList, "Great service!".toList⟩ = "Autre".toList ∨
     ParsedReview.genre ⟨"Homme".toList, "Dupont".toList, "Jean".toList,
        "jean.dupont@example.com".toList, "Great service!".toList⟩ = []) ∧
    (matchP1 (preOf ("Monsieur Dupont Jean vient de vous suggérer ceci à Geneva: Great service! Pour répondre: jean.dupont@example.com").toList) = none →
     matchP2 (preOf ("Monsieur Dupont Jean vient de vous suggérer ceci à Geneva: Great service! Pour répondre: jean.dupont@example.com").toList) = none →
     ParsedReview.genre ⟨"Homme".toList, "Dupont".toList, "Jean".toList,
        "jean.dupont@example.com".toList, "Great service!".toList⟩ = []) :=
  c4_genre_range
    ("Monsieur Dupont Jean vient de vous suggérer ceci à Geneva: Great service! Pour répondre: jean.dupont@example.com").toList
    ⟨"Homme".toList, "Dupont".toList, "Jean".toList,
      "jean.dupont@example.com".toList, "Great service!".toList⟩
    (by decide)

/-- Claim C2: on the specific well-formed input message, `parse_email_body`
returns genre "Homme", nom "Dupont", prenom "Jean", email
"jean.dupont@example.com" and commentaire "Great service!". -/
theorem c2_parser_roundtrip :
    parse_email_body
        ("Monsieur Dupont Jean vient de vous suggérer ceci à Geneva: Great service! Pour répondre: jean.dupont@example.com").toList
      = some ⟨"Homme".toList, "Dupont".toList, "Jean".toList,
             "jean.dupont@example.com".toList, "Great service!".toList⟩ := by
  decide

/-- Helper: full acceptance characterization of `is_valid_email`. -/
theorem is_valid_email_eq_true_iff (cfg : Config) (email : List Char) :
    is_valid_email cfg email = true ↔
      (email.isEmpty = false ∧
       cfg.email_blacklist.contains (normEmail email) = false ∧
       (normEmail email).contains '@' = true ∧
       (normEmail email).contains '.' = true ∧
       3 ≤ (rsplitAtSign (normEmail email)).1.length ∧
       cfg.spam_keywords.contains (rsplitAtSign (normEmail email)).1 = false ∧
       pyIsDigit (rsplitAtSign (normEmail email)).1 = false ∧
       ¬ (distinctCount (rsplitAtSign (normEmail email)).1 ≤ 2 ∧
          3 < (rsplitAtSign (normEmail email)).1.length) ∧
       cfg.disposable_domains.contains (rsplitAtSign (normEmail email)).2 = false) := by
  unfold is_valid_email
  split_ifs with h1 h2 h3 h4 h5 h6 h7 h8
  · simp only [false_iff]
    intro hh
    rw [h1] at hh
    exact Bool.noConfusion hh.1
  · simp only [false_iff]
    intro hh
    rw [h2] at hh
    exact Bool.noConfusion hh.2.1
  · simp only [false_iff]
    intro hh
    simp only [Bool.or_eq_true, Bool.not_eq_true'] at h3
    rcases h3 with h | h
    · rw [h] at hh
      exact Bool.noConfusion hh.2.2.1
    · rw [h] at hh
      exact Bool.noConfusion hh.2.2.2.1
  · simp only [false_iff]
    intro hh
    exact absurd hh.2.2.2.2.1 (by omega)
  · simp only [false_iff]
    intro hh
    rw [h5] at hh
    exact Bool.noConfusion hh.2.2.2.2.2.2.2.2
  · simp only [false_iff]
    intro hh
    rw [h6] at hh
    exact Bool.noConfusion hh.2.2.2.2.2.1
  · simp only [false_iff]
    intro hh
    rw [h7] at hh
    exact Bool.noConfusion hh.2.2.2.2.2.2.1
  · simp only [Bool.and_eq_true, decide_eq_true_eq] at h8
    simp only [false_iff]
    intro hh
    exact hh.2.2.2.2.2.2.2.1 ⟨h8.1, h8.2⟩
  · simp only [Bool.or_eq_true, Bool.not_eq_true', not_or, Bool.not_eq_false] at h3
    simp only [Bool.and_eq_true, decide_eq_true_eq, not_and] at h8
    simp only [Bool.not_eq_true] at h1 h2 h3 h5 h6 h7
    simp only [true_iff]
    refine ⟨h1, h2, h3.1, h3.2, by omega, h6, h7, ?_, h5⟩
    intro hc
    exact absurd hc.2 (by exact h8 hc.1)

/-- Claim C5: `is_valid_email` returns `true` exactly when the input is
non-empty and, after lowercasing and trimming, it avoids the blacklist,
contains both `'@'` and `'.'`, its local part (split on the last `'@'`) has
length at least 3, is no spam keyword, is not all digits, and is not a
short-alphabet repetition longer than 3 characters, and its domain is not
disposable; in particular "a@b.c" is always rejected, any input whose
normalization is blacklisted is rejected, and "john.doe@gmail.com" is
accepted whenever no configured set matches it. -/
theorem c5_is_valid_email_spec :
    (∀ (cfg : Config) (email : List Char),
      is_valid_email cfg email = true ↔
        (email.isEmpty = false ∧
         cfg.email_blacklist.contains (normEmail email) = false ∧
         (normEmail email).contains '@' = true ∧
         (normEmail email).contains '.' = true ∧
         3 ≤ (rsplitAtSign (normEmail email)).1.length ∧
         cfg.spam_keywords.contains (rsplitAtSign (normEmail email)).1 = false ∧
         pyIsDigit (rsplitAtSign (normEmail email)).1 = false ∧
         ¬ (distinctCount (rsplitAtSign (normEmail email)).1 ≤ 2 ∧
            3 < (rsplitAtSign (normEmail email)).1.length) ∧
         cfg.disposable_domains.contains (rsplitAtSign (normEmail email)).2 = false)) ∧
    (∀ cfg : Config, is_valid_email cfg ("a@b.c".toList) = false) ∧
    (∀ (cfg : Config) (email : List Char),
      cfg.email_blacklist.contains (normEmail email) = true →
      is_valid_email cfg email = false) ∧
    (∀ cfg : Config,
      cfg.email_blacklist.contains ("john.doe@gmail.com".toList) = false →
      cfg.disposable_domains.contains ("gmail.com".toList) = false →
      cfg.spam_keywords.contains ("john.doe".toList) = false →
      is_valid_email cfg ("john.doe@gmail.com".toList) = true) := by
  refine ⟨is_valid_email_eq_true_iff, ?_, ?_, ?_⟩
  · intro cfg
    cases hb : is_valid_email cfg ("a@b.c".toList)
    · rfl
    · have h := (is_valid_email_eq_true_iff cfg ("a@b.c".toList)).mp hb
      exact absurd h.2.2.2.2.1 (by decide)
  · intro cfg email h
    cases hb : is_valid_email cfg email
    · rfl
    · have hc := (is_valid_email_eq_true_iff cfg email).mp hb
      rw [hc.2.1] at h
      exact Bool.noConfusion h
  · intro cfg h1 h2 h3
    exact (is_valid_email_eq_true_iff cfg _).mpr
      ⟨rfl, h1, rfl, rfl, by decide, h3, rfl, by decide, h2⟩

/-- Claim C5 witness: the characterization applied at concrete inputs with
the empty configuration. -/
theorem c5_is_valid_email_spec_witness :
    is_valid_email ⟨[], [], [], [], []⟩ ("john.doe@gmail.com".toList) = true ∧
    is_valid_email ⟨[], [], [], [], []⟩ ("a@b.c".toList) = false := by
  exact ⟨c5_is_valid_email_spec.2.2.2 ⟨[], [], [], [], []⟩ rfl rfl rfl,
         c5_is_valid_email_spec.2.1 ⟨[], [], [], [], []⟩⟩

/-- Helper: each loop iteration records exactly one disposition. -/
theorem totals_processMessage (cfg : Config) (s : RunState) (m : GMessage) :
    totals (processMessage cfg s m).2 = totals s + 1 := by
  cases hc : m.content with
  | none =>
    simp only [processMessage, hc, totals, List.length_append, List.length_cons,
      List.length_nil]
    omega
  | some c =>
    cases hp : parse_email_body c.body with
    | none =>
      simp only [processMessage, hc, hp, totals]
      omega
    | some p =>
      simp only [processMessage, hc, hp]
      split_ifs <;>
        simp only [totals, List.length_append, List.length_cons, List.length_nil] <;>
        omega

/-- Helper: total dispositions over a run segment. -/
theorem totals_runLoop (cfg : Config) (s : RunState) (msgs : List GMessage) :
    totals (runLoop cfg s msgs) = totals s + msgs.length := by
  induction msgs generalizing s with
  | nil => rfl
  | cons m ms ih =>
    unfold runLoop at ih ⊢
    simp only [List.foldl_cons, List.length_cons]
    rw [ih, totals_processMessage]
    omega

/-- Claim C6: every successfully fetched message is classified into exactly
one outcome, short-circuiting on the first failing check in the fixed order
no_email → invalid_email → duplicate → invalid_name → invalid_comment
(otherwise accepted); and accepted rows plus the five outcome counters plus
the per-message errors add up to the number of newly fetched messages
processed by the loop. -/
theorem c6_outcome_partition :
    (∀ (cfg : Config) (s : RunState) (m : GMessage) (c : MsgContent),
      m.content = some c →
      ((classify cfg s m = .noEmail ↔ parse_email_body c.body = none) ∧
       (classify cfg s m = .invalidEmail ↔ ∃ p, parse_email_body c.body = some p ∧
          is_valid_email cfg p.email = false) ∧
       (classify cfg s m = .duplicate ↔ ∃ p, parse_email_body c.body = some p ∧
          is_valid_email cfg p.email = true ∧
          s.seenEmails.contains (normEmail p.email) = true) ∧
       (classify cfg s m = .invalidName ↔ ∃ p, parse_email_body c.body = some p ∧
          is_valid_email cfg p.email = true ∧
          s.seenEmails.contains (normEmail p.email) = false ∧
          is_valid_name cfg p.nom p.prenom = false) ∧
       (classify cfg s m = .invalidComment ↔ ∃ p, parse_email_body c.body = some p ∧
          is_valid_email cfg p.email = true ∧
          s.seenEmails.contains (normEmail p.email) = false ∧
          is_valid_name cfg p.nom p.prenom = true ∧
          is_valid_comment cfg p.commentaire = false) ∧
       (classify cfg s m = .accepted ↔ ∃ p, parse_email_body c.body = some p ∧
          is_valid_email cfg p.email = true ∧
          s.seenEmails.contains (normEmail p.email) = false ∧
          is_valid_name cfg p.nom p.prenom = true ∧
          is_valid_comment cfg p.commentaire = true))) ∧
    (∀ (cfg : Config) (s : RunState) (msgs : List GMessage),
      totals (runLoop cfg s msgs) = totals s + msgs.length) := by
  constructor
  · intro cfg s m c hc
    cases hp : parse_email_body c.body with
    | none => simp [classify, processMessage, hc, hp]
    | some p =>
      simp only [classify, processMessage, hc, hp]
      split_ifs with he hd hn hcm <;>
        simp_all [Bool.not_eq_true', Bool.not_eq_false]
  · exact totals_runLoop

/-- Claim C6 witness: the partition applied to a concrete run. -/
theorem c6_outcome_partition_witness :
    (classify ⟨[], [], [], [], []⟩ (initState [] []) ⟨"m1".toList, some ⟨[], [], "x".toList⟩⟩
        = .noEmail ↔ parse_email_body "x".toList = none) ∧
    totals (runLoop ⟨[], [], [], [], []⟩ (initState [] [])
        [⟨"m1".toList, some ⟨[], [], "x".toList⟩⟩]) = totals (initState [] []) + 1 := by
  exact ⟨(c6_outcome_partition.1 ⟨[], [], [], [], []⟩ (initState [] [])
            ⟨"m1".toList, some ⟨[], [], "x".toList⟩⟩ ⟨[], [], "x".toList⟩ rfl).1,
         c6_outcome_partition.2 ⟨[], [], [], [], []⟩ (initState [] [])
            [⟨"m1".toList, some ⟨[], [], "x".toList⟩⟩]⟩

/-- Claim C7: a message whose fetch/decode raises is not checkpointed (its
error is recorded and the loop continues with the next message), whereas
every message reaching classification has its identifier checkpointed
unconditionally. -/
theorem c7_error_not_checkpointed :
    ∀ (cfg : Config) (s : RunState) (m : GMessage),
      (m.content = none →
        (processMessage cfg s m).2.processedIds = s.processedIds ∧
        (processMessage cfg s m).2.errors = s.errors ++ [m.id] ∧
        ∀ msgs, runLoop cfg s (m :: msgs) = runLoop cfg (processMessage cfg s m).2 msgs) ∧
      (∀ c, m.content = some c →
        m.id ∈ (processMessage cfg s m).2.processedIds) := by
  intro cfg s m
  constructor
  · intro hn
    refine ⟨?_, ?_, fun msgs => rfl⟩ <;> simp [processMessage, hn]
  · intro c hc
    have hmem : m.id ∈ insertId s.processedIds m.id := by
      unfold insertId
      split_ifs with h
      · exact List.elem_iff.mp h
      · exact List.mem_append_right _ (List.mem_singleton.mpr rfl)
    cases hp : parse_email_body c.body with
    | none =>
      simp only [processMessage, hc, hp]
      exact hmem
    | some p =>
      simp only [processMessage, hc, hp]
      split_ifs <;> exact hmem

/-- Helper: unfolding one step of the loop. -/
theorem runLoop_cons (cfg : Config) (s : RunState) (m : GMessage) (ms : List GMessage) :
    runLoop cfg s (m :: ms) = runLoop cfg (processMessage cfg s m).2 ms := rfl

/-- Helper: an element stays in the checkpoint set under insertion. -/
theorem mem_insertId_of_mem {ids : List (List Char)} {i x : List Char} (h : x ∈ ids) :
    x ∈ insertId ids i := by
  unfold insertId
  split_ifs with hc
  · exact h
  · exact List.mem_append_left _ h

/-- Helper: a classified message's id enters the checkpoint set. -/
theorem id_mem_step (cfg : Config) (s : RunState) (m : GMessage) (c : MsgContent)
    (hc : m.content = some c) : m.id ∈ (processMessage cfg s m).2.processedIds := by
  have hmem : m.id ∈ insertId s.processedIds m.id := by
    unfold insertId
    split_ifs with h
    · exact List.elem_iff.mp h
    · exact List.mem_append_right _ (List.mem_singleton.mpr rfl)
  cases hp : parse_email_body c.body with
  | none =>
    simp only [processMessage, hc, hp]
    exact hmem
  | some p =>
    simp only [processMessage, hc, hp]
    split_ifs <;> exact hmem

/-- Helper: the checkpoint set never loses elements in one step. -/
theorem processedIds_step_mono (cfg : Config) (s : RunState) (m : GMessage)
    (x : List Char) (hx : x ∈ s.processedIds) :
    x ∈ (processMessage cfg s m).2.processedIds := by
  cases hc : m.content with
  | none =>
    simp only [processMessage, hc]
    exact hx
  | some c =>
    cases hp : parse_email_body c.body with
    | none =>
      simp only [processMessage, hc, hp]
      exact mem_insertId_of_mem hx
    | some p =>
      simp only [processMessage, hc, hp]
      split_ifs <;> exact mem_insertId_of_mem hx

/-- Helper: the checkpoint set never loses elements over a run segment. -/
theorem processedIds_runLoop_mono (cfg : Config) (msgs : List GMessage) :
    ∀ (s : RunState) (x : List Char), x ∈ s.processedIds →
      x ∈ (runLoop cfg s msgs).processedIds := by
  induction msgs with
  | nil => exact fun s x h => h
  | cons m ms ih =>
    intro s x h
    rw [runLoop_cons]
    exact ih _ _ (processedIds_step_mono cfg s m x h)

/-- Helper: one step only appends to the error list. -/
theorem errors_step (cfg : Config) (s : RunState) (m : GMessage) :
    ∃ u, (processMessage cfg s m).2.errors = s.errors ++ u := by
  cases hc : m.content with
  | none => exact ⟨[m.id], by simp [processMessage, hc]⟩
  | some c =>
    cases hp : parse_email_body c.body with
    | none =>
      refine ⟨[], ?_⟩
      simp only [processMessage, hc, hp, List.append_nil]
    | some p =>
      refine ⟨[], ?_⟩
      simp only [processMessage, hc, hp, List.append_nil]
      split_ifs <;> rfl

/-- Helper: the error list only grows over a run segment. -/
theorem errors_runLoop_grow (cfg : Config) (msgs : List GMessage) :
    ∀ s : RunState, ∃ t, (runLoop cfg s msgs).errors = s.errors ++ t := by
  induction msgs with
  | nil => exact fun s => ⟨[], (List.append_nil _).symm⟩
  | cons m ms ih =>
    intro s
    obtain ⟨u, hu⟩ := errors_step cfg s m
    obtain ⟨t, ht⟩ := ih (processMessage cfg s m).2
    refine ⟨u ++ t, ?_⟩
    rw [runLoop_cons, ht, hu, List.append_assoc]

/-- Helper: an error-free run segment checkpoints every id it visits. -/
theorem runLoop_all_checkpointed (cfg : Config) (msgs : List GMessage) :
    ∀ s : RunState, (runLoop cfg s msgs).errors = [] →
      ∀ m ∈ msgs, m.id ∈ (runLoop cfg s msgs).processedIds := by
  induction msgs with
  | nil =>
    intro s h m hm
    exact absurd hm (List.not_mem_nil m)
  | cons m0 ms ih =>
    intro s herr m hm
    rw [runLoop_cons] at herr ⊢
    rcases List.mem_cons.mp hm with rfl | hm'
    · cases hc : m.content with
      | none =>
        exfalso
        obtain ⟨t, ht⟩ := errors_runLoop_grow cfg ms (processMessage cfg s m).2
        rw [ht] at herr
        have hstep : (processMessage cfg s m).2.errors = s.errors ++ [m.id] := by
          simp [processMessage, hc]
        rw [hstep] at herr
        simp at herr
      | some c =>
        exact processedIds_runLoop_mono cfg ms _ _ (id_mem_step cfg s m c hc)
    · exact ih _ herr m hm'

/-- Claim C8: if a run finishes with no per-message errors and its checkpoint
is persisted, a second run over the same unchanged mailbox finds every
message id already checkpointed, processes zero new messages, and accepts
zero rows. -/
theorem c8_second_run_idempotent :
    ∀ (cfg : Config) (mailbox : List GMessage) (ckpt ex ex2 : List (List Char)),
      (runPipeline cfg mailbox ckpt ex).1.errors = [] →
      ((∀ m ∈ mailbox, m.id ∈ (runPipeline cfg mailbox ckpt ex).1.processedIds) ∧
       (runPipeline cfg mailbox
          (runPipeline cfg mailbox ckpt ex).1.processedIds ex2).2 = [] ∧
       (runPipeline cfg mailbox
          (runPipeline cfg mailbox ckpt ex).1.processedIds ex2).1.rows = []) := by
  intro cfg mailbox ckpt ex ex2 herr
  have hall : ∀ m ∈ mailbox, m.id ∈ (runPipeline cfg mailbox ckpt ex).1.processedIds := by
    intro m hm
    by_cases hck : ckpt.contains m.id = true
    · exact processedIds_runLoop_mono cfg _ (initState ckpt ex) m.id (List.elem_iff.mp hck)
    · have hmem : m ∈ mailbox.filter (fun m => !ckpt.contains m.id) :=
        List.mem_filter.mpr ⟨hm, by
          simp only [Bool.not_eq_true']
          exact Bool.eq_false_iff.mpr hck⟩
      exact runLoop_all_checkpointed cfg _ (initState ckpt ex) herr m hmem
  have hfil : mailbox.filter
      (fun m => !(runPipeline cfg mailbox ckpt ex).1.processedIds.contains m.id) = [] := by
    rw [List.filter_eq_nil_iff]
    intro m hm
    simp only [Bool.not_eq_true', Bool.not_eq_false]
    exact List.elem_iff.mpr (hall m hm)
  refine ⟨hall, hfil, ?_⟩
  show (runLoop cfg
    (initState (runPipeline cfg mailbox ckpt ex).1.processedIds ex2)
    (mailbox.filter
      (fun m => !(runPipeline cfg mailbox ckpt ex).1.processedIds.contains m.id))).rows = []
  rw [hfil]
  rfl

/-- Claim C8 witness: a concrete one-message mailbox, rerun after an
error-free first run. -/
theorem c8_second_run_idempotent_witness :
    ((∀ m ∈ [(⟨"m1".toList, some ⟨[], [], "x".toList⟩⟩ : GMessage)],
        m.id ∈ (runPipeline ⟨[], [], [], [], []⟩
          [⟨"m1".toList, some ⟨[], [], "x".toList⟩⟩] [] []).1.processedIds) ∧
     (runPipeline ⟨[], [], [], [], []⟩ [⟨"m1".toList, some ⟨[], [], "x".toList⟩⟩]
        (runPipeline ⟨[], [], [], [], []⟩
          [⟨"m1".toList, some ⟨[], [], "x".toList⟩⟩] [] []).1.processedIds []).2 = [] ∧
     (runPipeline ⟨[], [], [], [], []⟩ [⟨"m1".toList, some ⟨[], [], "x".toList⟩⟩]
        (runPipeline ⟨[], [], [], [], []⟩
          [⟨"m1".toList, some ⟨[], [], "x".toList⟩⟩] [] []).1.processedIds []).1.rows = []) :=
  c8_second_run_idempotent ⟨[], [], [], [], []⟩
    [⟨"m1".toList, some ⟨[], [], "x".toList⟩⟩] [] [] [] rfl

/-- Helper: the dedup set never loses elements in one step. -/
theorem seen_step_mono (cfg : Config) (s : RunState) (m : GMessage)
    (x : List Char) (hx : x ∈ s.seenEmails) :
    x ∈ (processMessage cfg s m).2.seenEmails := by
  cases hc : m.content with
  | none =>
    simp only [processMessage, hc]
    exact hx
  | some c =>
    cases hp : parse_email_body c.body with
    | none =>
      simp only [processMessage, hc, hp]
      exact hx
    | some p =>
      simp only [processMessage, hc, hp]
      split_ifs <;> first | exact hx | exact List.mem_cons_of_mem _ hx

/-- Helper: the dedup set never loses elements over a run segment. -/
theorem seen_runLoop_mono (cfg : Config) (msgs : List GMessage) :
    ∀ (s : RunState) (x : List Char), x ∈ s.seenEmails →
      x ∈ (runLoop cfg s msgs).seenEmails := by
  induction msgs with
  | nil => exact fun s x h => h
  | cons m ms ih =>
    intro s x h
    rw [runLoop_cons]
    exact ih _ _ (seen_step_mono cfg s m x h)

/-- Helper: a message rejected for its name or comment has nevertheless had
its normalized email added to the dedup set. -/
theorem seen_after_reject (cfg : Config) (s : RunState) (m : GMessage)
    (c : MsgContent) (p : ParsedReview)
    (hc : m.content = some c) (hp : parse_email_body c.body = some p)
    (hout : classify cfg s m = .invalidName ∨ classify cfg s m = .invalidComment) :
    normEmail p.email ∈ (processMessage cfg s m).2.seenEmails := by
  simp only [classify, processMessage, hc, hp] at hout ⊢
  split_ifs at hout with he hd hn hcm <;>
    simp_all [List.mem_cons_self]

/-- Helper: a parsed, email-valid message whose normalized email is already
in the dedup set is classified `duplicate`. -/
theorem classify_duplicate_of_seen (cfg : Config) (s : RunState) (m : GMessage)
    (c : MsgContent) (p : ParsedReview)
    (hc : m.content = some c) (hp : parse_email_body c.body = some p)
    (hv : is_valid_email cfg p.email = true)
    (hs : normEmail p.email ∈ s.seenEmails) :
    classify cfg s m = .duplicate := by
  simp only [classify, processMessage, hc, hp, hv, Bool.not_true, Bool.false_eq_true,
    if_false, List.elem_iff.mpr hs, if_true]

/-- Helper: any outcome other than acceptance leaves the accumulated rows
unchanged. -/
theorem rows_step_of_not_accepted (cfg : Config) (s : RunState) (m : GMessage)
    (h : classify cfg s m ≠ .accepted) :
    (processMessage cfg s m).2.rows = s.rows := by
  cases hc : m.content with
  | none => simp only [processMessage, hc]
  | some c =>
    cases hp : parse_email_body c.body with
    | none => simp only [processMessage, hc, hp]
    | some p =>
      simp only [classify, processMessage, hc, hp] at h ⊢
      split_ifs at h ⊢ <;> first | rfl | exact absurd rfl h

/-- Claim C10: a message that passes the email-validity and duplicate checks
has its normalized email added to the dedup set before name/comment
validation, so if it is then rejected as invalid_name or invalid_comment (no
row is written for it), any later message of the run with the same
case-insensitively equal trimmed email is classified duplicate. -/
theorem c10_reject_poisons_dedup :
    ∀ (cfg : Config) (s0 : RunState) (pref mid : List GMessage) (m1 m2 : GMessage)
      (c1 c2 : MsgContent) (p1 p2 : ParsedReview),
      m1.content = some c1 → m2.content = some c2 →
      parse_email_body c1.body = some p1 → parse_email_body c2.body = some p2 →
      normEmail p2.email = normEmail p1.email →
      is_valid_email cfg p2.email = true →
      (classify cfg (runLoop cfg s0 pref) m1 = .invalidName ∨
       classify cfg (runLoop cfg s0 pref) m1 = .invalidComment) →
      ((processMessage cfg (runLoop cfg s0 pref) m1).2.rows = (runLoop cfg s0 pref).rows ∧
       classify cfg (runLoop cfg (processMessage cfg (runLoop cfg s0 pref) m1).2 mid) m2
         = .duplicate) := by
  intro cfg s0 pref mid m1 m2 c1 c2 p1 p2 hc1 hc2 hp1 hp2 heq hv2 hout
  constructor
  · apply rows_step_of_not_accepted
    rcases hout with h | h <;> rw [h] <;> intro hfalse <;> exact Outcome.noConfusion hfalse
  · apply classify_duplicate_of_seen cfg _ m2 c2 p2 hc2 hp2 hv2
    rw [heq]
    exact seen_runLoop_mono cfg mid _ _
      (seen_after_reject cfg (runLoop cfg s0 pref) m1 c1 p1 hc1 hp1 hout)

/-- Claim C10 witness: concrete two-message scenario — the first message is
rejected for its missing first name, the second carries the same email in a
different case and is classified duplicate. -/
theorem c10_reject_poisons_dedup_witness :
    ((processMessage ⟨[], [], [], [], []⟩ (runLoop ⟨[], [], [], [], []⟩ (initState [] []) [])
        ⟨"m1".toList, some ⟨[], [],
          "Monsieur Dupont vient de vous suggérer ceci à X: ok Pour répondre: abc@def.gh".toList⟩⟩).2.rows
      = (runLoop ⟨[], [], [], [], []⟩ (initState [] []) []).rows ∧
     classify ⟨[], [], [], [], []⟩
       (runLoop ⟨[], [], [], [], []⟩
         (processMessage ⟨[], [], [], [], []⟩ (runLoop ⟨[], [], [], [], []⟩ (initState [] []) [])
           ⟨"m1".toList, some ⟨[], [],
             "Monsieur Dupont vient de vous suggérer ceci à X: ok Pour répondre: abc@def.gh".toList⟩⟩).2 [])
       ⟨"m2".toList, some ⟨[], [],
         "Madame Dupont Jeanne vient de vous suggérer ceci à X: ok Pour répondre: ABC@def.gh".toList⟩⟩
       = .duplicate) :=
  c10_reject_poisons_dedup ⟨[], [], [], [], []⟩ (initState [] []) [] []
    ⟨"m1".toList, some ⟨[], [],
      "Monsieur Dupont vient de vous suggérer ceci à X: ok Pour répondre: abc@def.gh".toList⟩⟩
    ⟨"m2".toList, some ⟨[], [],
      "Madame Dupont Jeanne vient de vous suggérer ceci à X: ok Pour répondre: ABC@def.gh".toList⟩⟩
    ⟨[], [], "Monsieur Dupont vient de vous suggérer ceci à X: ok Pour répondre: abc@def.gh".toList⟩
    ⟨[], [], "Madame Dupont Jeanne vient de vous suggérer ceci à X: ok Pour répondre: ABC@def.gh".toList⟩
    ⟨"Homme".toList, "Dupont".toList, [], "abc@def.gh".toList, "ok".toList⟩
    ⟨"Femme".toList, "Dupont".toList, "Jeanne".toList, "ABC@def.gh".toList, "ok".toList⟩
    rfl rfl (by decide) (by decide) (by decide) (by decide) (Or.inl (by decide))

/-- Claim C7 witness: both halves applied to concrete messages. -/
theorem c7_error_not_checkpointed_witness :
    (processMessage ⟨[], [], [], [], []⟩ (initState [] []) ⟨"e1".toList, none⟩).2.processedIds
        = (initState [] []).processedIds ∧
    "m2".toList ∈ (processMessage ⟨[], [], [], [], []⟩ (initState [] [])
        ⟨"m2".toList, some ⟨[], [], "x".toList⟩⟩).2.processedIds := by
  exact ⟨((c7_error_not_checkpointed ⟨[], [], [], [], []⟩ (initState [] [])
            ⟨"e1".toList, none⟩).1 rfl).1,
         (c7_error_not_checkpointed ⟨[], [], [], [], []⟩ (initState [] [])
            ⟨"m2".toList, some ⟨[], [], "x".toList⟩⟩).2 ⟨[], [], "x".toList⟩ rfl⟩

end GX

